import Mathlib

/-!
Verification of the shop_manager data model and persistence layer.

Shallow embedding of `src/models.py` and `src/db.py`:

* Python strings are modelled as `List Char` (`Str`).
* Python `float` money values are modelled as exact rationals (`ℚ`);
  Python `round(x, 2)` is round-half-to-even at two decimals (`round2`).
* Python exceptions are modelled with `Except` / result pairs:
  `ValidationError` becomes `ModelError.validationError`,
  `sqlite3.IntegrityError` becomes `DbError.integrityError`.
* The SQLite database file is modelled as an explicit state (`DBState`);
  every operation of `db.py` opens its own fresh connection via `connect`,
  commits on success and rolls back on error, so each operation is a pure
  function from the old state to either an error (state unchanged) or a
  new state.
-/

/-! ## Strings and the two regular expressions of models.py

`EMAIL_RE = ^[A-Za-z0-9._%+-]+@[A-Za-z0-9.-]+\.[A-Za-z]{2,}$`
`PHONE_RE = ^\+?[0-9\s\-()]{7,}$`

Both are used through `re.match`, whose result is truthy iff the anchored
pattern matches.  In Python (without `re.MULTILINE`) `$` matches at the end
of the string or just before one final newline, so `match s` succeeds iff
the core pattern matches all of `s`, or `s` ends with `'\n'` and the core
pattern matches `s` without that final newline.
-/

abbrev Str := List Char

/-- Character class `[A-Za-z]` of `EMAIL_RE`. -/
def isAsciiAlpha (c : Char) : Bool :=
  (('A' ≤ c) && (c ≤ 'Z')) || (('a' ≤ c) && (c ≤ 'z'))

/-- Character class `[0-9]` of `PHONE_RE`. -/
def isAsciiDigit (c : Char) : Bool :=
  ('0' ≤ c) && (c ≤ '9')

/-- Character class `[A-Za-z0-9._%+-]` (local part of `EMAIL_RE`). -/
def isLocalChar (c : Char) : Bool :=
  isAsciiAlpha c || isAsciiDigit c || (c == '.') || (c == '_') || (c == '%')
    || (c == '+') || (c == '-')

/-- Character class `[A-Za-z0-9.-]` (domain part of `EMAIL_RE`). -/
def isDomainChar (c : Char) : Bool :=
  isAsciiAlpha c || isAsciiDigit c || (c == '.') || (c == '-')

/-- Python regex class `\s`, restricted to the ASCII whitespace characters
(the phones the program handles are ASCII; this is the documented ASCII
portion of `\s`). -/
def isSpaceChar (c : Char) : Bool :=
  (c == ' ') || (c == '\t') || (c == '\n') || (c == '\r')
    || (c == '\x0b') || (c == '\x0c')

/-- Character class `[0-9\s\-()]` of `PHONE_RE`. -/
def isPhoneChar (c : Char) : Bool :=
  isAsciiDigit c || isSpaceChar c || (c == '-') || (c == '(') || (c == ')')

/-- Match of `[A-Za-z0-9.-]+\.[A-Za-z]{2,}` against all of `r` (the part of
`EMAIL_RE` after the `@`).  The regex matches iff `r` splits as
`d ++ '.' :: t` with `d` a nonempty run of domain characters and `t` at
least two ASCII letters; the search over all split points is written out
as a bounded existential. -/
def domainTldMatch (r : Str) : Bool :=
  (List.range r.length).any fun j =>
    match r.drop j with
    | c :: t =>
        (c == '.') && !(r.take j).isEmpty && (r.take j).all isDomainChar
          && t.all isAsciiAlpha && decide (2 ≤ t.length)
    | [] => false

/-- Match of the full `EMAIL_RE` core against all of `s`.  Since `'@'` is
not a local-part character, the greedy `[A-Za-z0-9._%+-]+` is forced to
consume exactly the maximal run of local characters, which must be nonempty
and be followed by `'@'`. -/
def emailCoreMatch (s : Str) : Bool :=
  match s.dropWhile isLocalChar with
  | c :: rest => (c == '@') && !(s.takeWhile isLocalChar).isEmpty && domainTldMatch rest
  | [] => false

/-- Truthiness of `EMAIL_RE.match(s)`: the core pattern matches `s`, or `s`
ends with a newline and the core pattern matches `s` without it (Python
`$` semantics). -/
def email_match (s : Str) : Bool :=
  emailCoreMatch s || ((s.getLast? == some '\n') && emailCoreMatch s.dropLast)

/-- Drop the single optional leading `'+'` consumed by `\+?` in `PHONE_RE`.
The remaining characters are the ones the `{7,}` repetition must cover. -/
def stripPlus (s : Str) : Str :=
  match s with
  | c :: t => if c == '+' then t else c :: t
  | [] => []

/-- Match of the `PHONE_RE` core against all of `s`: after the optional
`'+'` there must be at least 7 characters, all in `[0-9\s\-()]`. -/
def phoneCoreMatch (s : Str) : Bool :=
  decide (7 ≤ (stripPlus s).length) && (stripPlus s).all isPhoneChar

/-- Truthiness of `PHONE_RE.match(s)` (same `$` treatment as the email). -/
def phone_match (s : Str) : Bool :=
  phoneCoreMatch s || ((s.getLast? == some '\n') && phoneCoreMatch s.dropLast)

/-- Modelled from the spec: tail of the spec phrase an `"@domain.tld"`
shape — some nonempty `domain`, a dot, and a nonempty `tld`.  Used only to
state claim C1; the code-side definition is `email_match`. -/
def shapeTail (r : Str) : Bool :=
  (List.range r.length).any fun j =>
    match r.drop j with
    | c :: t => (c == '.') && !(r.take j).isEmpty && !t.isEmpty
    | [] => false

/-- Modelled from the spec: an email has an `"@domain.tld"` shape when it
splits as `local ++ "@" ++ domain ++ "." ++ tld` with all three parts
nonempty.  Claim C1 asserts that every email lacking this shape is
rejected. -/
def hasEmailShape (s : Str) : Bool :=
  (List.range s.length).any fun i =>
    match s.drop i with
    | c :: r => (c == '@') && !(s.take i).isEmpty && shapeTail r
    | [] => false

/-! ## models.py: errors and entities -/

/-- Exception `ValidationError(msg)` from models.py (a `ValueError` subclass). -/
inductive ModelError where
  | validationError : Str → ModelError
deriving DecidableEq

/-- Dataclass `Customer(Person)`: `name`, `email`, `phone`, `city`, `id`. -/
structure Customer where
  name : Str
  email : Str
  phone : Str
  city : Str
  id : Option Int
deriving DecidableEq

/-- Construction of a `Customer`, i.e. the dataclass constructor followed by
`Customer.__post_init__`: raise `ValidationError` unless both regular
expressions match. -/
def mkCustomer (name email phone city : Str) (id : Option Int) :
    Except ModelError Customer :=
  if !email_match email then
    Except.error (ModelError.validationError ("Некорректный email: ".data ++ email))
  else if !phone_match phone then
    Except.error (ModelError.validationError ("Некорректный номер телефона: ".data ++ phone))
  else
    Except.ok ⟨name, email, phone, city, id⟩

/-- Dataclass `Product`: `name`, `price`, `sku`, `id`. -/
structure Product where
  name : Str
  price : ℚ
  sku : Str
  id : Option Int
deriving DecidableEq

/-- Construction of a `Product` (`Product.__post_init__`): raise
`ValidationError` if the price is negative. -/
def mkProduct (name : Str) (price : ℚ) (sku : Str) (id : Option Int) :
    Except ModelError Product :=
  if price < 0 then
    Except.error (ModelError.validationError "Цена не может быть отрицательной".data)
  else
    Except.ok ⟨name, price, sku, id⟩

/-- Python `round(x, 2)` on exact values: round `100 * x` half-to-even to an
integer, then divide by 100. -/
def roundHalfEven (x : ℚ) : Int :=
  if x - ⌊x⌋ < 1 / 2 then ⌊x⌋
  else if 1 / 2 < x - ⌊x⌋ then ⌊x⌋ + 1
  else if ⌊x⌋ % 2 = 0 then ⌊x⌋ else ⌊x⌋ + 1

/-- Two-decimal rounding used by `subtotal` and `total`. -/
def round2 (x : ℚ) : ℚ := (roundHalfEven (100 * x) : ℚ) / 100

/-- Dataclass `OrderItem`: `product_id`, `quantity`, `unit_price`. -/
structure OrderItem where
  product_id : Int
  quantity : Int
  unit_price : ℚ
deriving DecidableEq

/-- Method `OrderItem.subtotal`: `round(quantity * unit_price, 2)`. -/
def OrderItem.subtotal (it : OrderItem) : ℚ :=
  round2 ((it.quantity : ℚ) * it.unit_price)

/-- Dataclass `Order`: `customer_id`, `created_at` (the ISO timestamp is kept
abstract as a string), `items`, `status`, `id`. -/
structure Order where
  customer_id : Int
  created_at : Str
  items : List OrderItem
  status : Str
  id : Option Int
deriving DecidableEq

instance : Inhabited Order := ⟨⟨0, [], [], [], none⟩⟩

/-- Method `Order.total`: `round(sum(i.subtotal() for i in items), 2)`. -/
def Order.total (o : Order) : ℚ :=
  round2 (o.items.map OrderItem.subtotal).sum

/-- Method `Order.add_item`: raise `ValidationError` when `item.quantity <= 0`
(leaving the order as it was), otherwise append the item.  The returned
pair is the order object after the call together with the raised error,
if any. -/
def Order.add_item (o : Order) (it : OrderItem) : Order × Option ModelError :=
  if it.quantity ≤ 0 then
    (o, some (ModelError.validationError "Количество должно быть положительным".data))
  else
    ({ o with items := o.items ++ [it] }, none)

/-! ## models.py: quicksort_orders

The Python function is generic in the element type and the key; comparisons
are `<`, `==`, `>` on the key values, so any linearly ordered key type is
admissible.  `orders[:]` in the base case returns the list value unchanged
(a fresh copy of it); the pivot is the middle element. -/

/-- Recursive quicksort of `models.py`: partition by the key of the middle
element into strictly-less, equal, strictly-greater, recurse on the two
strict parts. -/
def quicksort_orders {α K : Type} [LinearOrder K] (orders : List α) (key : α → K) :
    List α :=
  if h : orders.length ≤ 1 then orders
  else
    have hp : orders.length / 2 < orders.length :=
      Nat.div_lt_self (by omega) (by omega)
    let pivot := orders.get ⟨orders.length / 2, hp⟩
    quicksort_orders (orders.filter fun o => decide (key o < key pivot)) key
      ++ orders.filter (fun o => decide (key o = key pivot))
      ++ quicksort_orders (orders.filter fun o => decide (key pivot < key o)) key
termination_by orders.length
decreasing_by
  · exact List.length_filter_lt_length_iff_exists.mpr
      ⟨orders.get ⟨orders.length / 2, hp⟩, List.get_mem _ _ _, by simp⟩
  · exact List.length_filter_lt_length_iff_exists.mpr
      ⟨orders.get ⟨orders.length / 2, hp⟩, List.get_mem _ _ _, by simp⟩

/-! ## A small heap model for the frame property of quicksort_orders

To state that `quicksort_orders` does not mutate its argument (claim C8),
Python list objects are modelled as cells of a heap.  Every list-producing
operation the function performs — the `orders[:]` slice, the three list
comprehensions, the concatenations — allocates a fresh cell; no operation
writes to an existing cell, which is exactly what the theorem below
establishes. -/

/-- A heap of Python list objects; an address is an index into `cells`. -/
structure Heap (α : Type) where
  cells : List (List α)
deriving DecidableEq

/-- Dereference an address (reading a dangling address gives `[]`). -/
def Heap.read {α : Type} (h : Heap α) (p : Nat) : List α :=
  h.cells.getD p []

/-- Allocate a fresh list object, returning its address. -/
def Heap.alloc {α : Type} (h : Heap α) (xs : List α) : Nat × Heap α :=
  (h.cells.length, ⟨h.cells ++ [xs]⟩)

/-- Function `quicksort_orders` in the heap model: the argument is the address of a
list object; the result is the address of the freshly built result list.
Recursion is fuelled; fuel exhaustion returns an empty allocation (the
Python recursion always terminates, and the frame theorem holds for every
fuel). -/
def quicksort_orders_heap {α K : Type} [Inhabited α] [LinearOrder K] (key : α → K) :
    Nat → Nat → Heap α → Nat × Heap α
  | 0, _, h => h.alloc []
  | fuel + 1, p, h =>
    let xs := h.read p
    if xs.length ≤ 1 then h.alloc xs
    else
      let pk := key (xs.getD (xs.length / 2) default)
      let pl := h.alloc (xs.filter fun o => decide (key o < pk))
      let pm := pl.2.alloc (xs.filter fun o => decide (key o = pk))
      let pr := pm.2.alloc (xs.filter fun o => decide (pk < key o))
      let ql := quicksort_orders_heap key fuel pl.1 pr.2
      let qr := quicksort_orders_heap key fuel pr.1 ql.2
      qr.2.alloc (qr.2.read ql.1 ++ qr.2.read pm.1 ++ qr.2.read qr.1)

/-! ## db.py: rows, state, and operations

Each function of `db.py` opens a fresh SQLite connection through the
`connect` context manager, which commits after the body and closes the
connection in a `finally:`; when the body raises, `commit` is skipped and
closing rolls the transaction back, so a failing operation leaves the
stored state unchanged.  `PRAGMA foreign_keys = ON` is executed only on the
connection used by `init_db` and the pragma is per-connection in SQLite, so
none of the later operations has foreign-key enforcement; UNIQUE and
PRIMARY KEY constraints are enforced unconditionally.  The AUTOINCREMENT
sequences of the three id columns are modelled by the `next*Id` fields. -/

/-- Row of the `customers` table. -/
structure CustomerRow where
  id : Int
  name : Str
  email : Str
  phone : Str
  city : Str
deriving DecidableEq

/-- Row of the `products` table. -/
structure ProductRow where
  id : Int
  name : Str
  price : ℚ
  sku : Str
deriving DecidableEq

/-- Row of the `orders` table. -/
structure OrderRow where
  id : Int
  customer_id : Int
  created_at : Str
  status : Str
deriving DecidableEq

/-- Row of the `order_items` table. -/
structure OrderItemRow where
  order_id : Int
  product_id : Int
  quantity : Int
  unit_price : ℚ
deriving DecidableEq

/-- The database file: the four tables plus the AUTOINCREMENT sequences. -/
structure DBState where
  customers : List CustomerRow
  products : List ProductRow
  orders : List OrderRow
  order_items : List OrderItemRow
  nextCustomerId : Int
  nextProductId : Int
  nextOrderId : Int
deriving DecidableEq

/-- Function `init_db` on a fresh database file: four empty tables. -/
def init_db : DBState := ⟨[], [], [], [], 1, 1, 1⟩

/-- Exception `sqlite3.IntegrityError(msg)`: the distinguishable storage-constraint
error of the persistence layer. -/
inductive DbError where
  | integrityError : Str → DbError
deriving DecidableEq

/-- PRIMARY KEY of the `order_items` table. -/
def pkKey (r : OrderItemRow) : Int × Int := (r.order_id, r.product_id)

/-- Keys of `new` are pairwise distinct and none occurs among the keys of
`existing`: the condition under which inserting the rows of `new` one by
one passes a uniqueness constraint on `keyf`. -/
def freshKeysB {α β : Type} [DecidableEq β] (keyf : α → β)
    (existing new : List α) : Bool :=
  decide (new.map keyf).Nodup
    && decide (∀ r ∈ new, keyf r ∉ existing.map keyf)

/-- Function `add_customer`: INSERT INTO customers; fails with an IntegrityError on
a duplicate email (UNIQUE), otherwise returns the fresh id. -/
def add_customer (st : DBState) (c : Customer) : Except DbError (Int × DBState) :=
  if st.customers.any fun row => row.email == c.email then
    Except.error (DbError.integrityError "UNIQUE constraint failed: customers.email".data)
  else
    Except.ok (st.nextCustomerId,
      { st with
        customers := st.customers ++ [⟨st.nextCustomerId, c.name, c.email, c.phone, c.city⟩]
        nextCustomerId := st.nextCustomerId + 1 })

/-- Function `add_product`: INSERT INTO products; fails with an IntegrityError on a
duplicate sku (UNIQUE). -/
def add_product (st : DBState) (p : Product) : Except DbError (Int × DBState) :=
  if st.products.any fun row => row.sku == p.sku then
    Except.error (DbError.integrityError "UNIQUE constraint failed: products.sku".data)
  else
    Except.ok (st.nextProductId,
      { st with
        products := st.products ++ [⟨st.nextProductId, p.name, p.price, p.sku⟩]
        nextProductId := st.nextProductId + 1 })

/-- Function `add_order`: INSERT INTO orders, then one INSERT INTO order_items per
item.  The connection has no foreign-key enforcement (`PRAGMA foreign_keys`
was only ever set inside `init_db`), so `o.customer_id` is not checked; the
PRIMARY KEY `(order_id, product_id)` is enforced, and if any item insert
violates it the exception skips the commit and the whole operation rolls
back. -/
def add_order (st : DBState) (o : Order) : Except DbError (Int × DBState) :=
  let oid := st.nextOrderId
  let newRows := o.items.map fun it =>
    OrderItemRow.mk oid it.product_id it.quantity it.unit_price
  if freshKeysB pkKey st.order_items newRows then
    Except.ok (oid,
      { st with
        orders := st.orders ++ [⟨oid, o.customer_id, o.created_at, o.status⟩]
        order_items := st.order_items ++ newRows
        nextOrderId := oid + 1 })
  else
    Except.error (DbError.integrityError
      "UNIQUE constraint failed: order_items.order_id, order_items.product_id".data)

/-- The per-table flat files produced by `export_to_csv_json` and consumed
by `import_from_csv_json`.  The pandas CSV/JSON serialization is modelled
as faithful transport of the row values of `SELECT * FROM table`: a file
is the list of rows it holds (`none` = no file supplied for that table). -/
structure TableFiles where
  customers : Option (List CustomerRow)
  products : Option (List ProductRow)
  orders : Option (List OrderRow)
  order_items : Option (List OrderItemRow)
deriving DecidableEq

/-- Function `export_to_csv_json`: a full-table snapshot of each of the four
tables. -/
def export_to_csv_json (st : DBState) : TableFiles :=
  ⟨some st.customers, some st.products, some st.orders, some st.order_items⟩

/-- Advance an AUTOINCREMENT sequence past a list of explicitly inserted
ids (SQLite keeps `sqlite_sequence` at the largest id ever inserted). -/
def bumpSeq (cur : Int) (ids : List Int) : Int :=
  ids.foldl (fun acc i => max acc (i + 1)) cur

/-- Function `import_from_csv_json`: blind append of the rows of the supplied files
into their tables, with no domain validation; the single transaction
commits only if every insert passes the table constraints (UNIQUE email,
UNIQUE sku, the id PRIMARY KEYs, and the `(order_id, product_id)` PRIMARY
KEY), and rolls back entirely otherwise. -/
def import_from_csv_json (st : DBState) (f : TableFiles) : Except DbError DBState :=
  let newC := f.customers.getD []
  let newP := f.products.getD []
  let newO := f.orders.getD []
  let newI := f.order_items.getD []
  if freshKeysB CustomerRow.id st.customers newC
      && freshKeysB CustomerRow.email st.customers newC
      && freshKeysB ProductRow.id st.products newP
      && freshKeysB ProductRow.sku st.products newP
      && freshKeysB OrderRow.id st.orders newO
      && freshKeysB pkKey st.order_items newI then
    Except.ok
      { customers := st.customers ++ newC
        products := st.products ++ newP
        orders := st.orders ++ newO
        order_items := st.order_items ++ newI
        nextCustomerId := bumpSeq st.nextCustomerId (newC.map CustomerRow.id)
        nextProductId := bumpSeq st.nextProductId (newP.map ProductRow.id)
        nextOrderId := bumpSeq st.nextOrderId (newO.map OrderRow.id) }
  else
    Except.error (DbError.integrityError "UNIQUE constraint failed".data)

/-- States reachable from a fresh database by the operations of `db.py`.
A `Customer` or `Product` argument can only exist if its construction
(with validation) succeeded, which the constructor evidence records; an
`Order` dataclass instance carries no construction-time validation. -/
inductive Reachable : DBState → Prop where
  | init : Reachable init_db
  | customer {st n e p c i cust cid st2} : Reachable st →
      mkCustomer n e p c i = Except.ok cust →
      add_customer st cust = Except.ok (cid, st2) → Reachable st2
  | product {st n pr sk i prod pid st2} : Reachable st →
      mkProduct n pr sk i = Except.ok prod →
      add_product st prod = Except.ok (pid, st2) → Reachable st2
  | order {st o oid st2} : Reachable st →
      add_order st o = Except.ok (oid, st2) → Reachable st2
  | importFiles {st f st2} : Reachable st →
      import_from_csv_json st f = Except.ok st2 → Reachable st2

/-- States reachable without the bulk import (used by the amended form of
claim C6). -/
inductive ReachableNoImport : DBState → Prop where
  | init : ReachableNoImport init_db
  | customer {st n e p c i cust cid st2} : ReachableNoImport st →
      mkCustomer n e p c i = Except.ok cust →
      add_customer st cust = Except.ok (cid, st2) → ReachableNoImport st2
  | product {st n pr sk i prod pid st2} : ReachableNoImport st →
      mkProduct n pr sk i = Except.ok prod →
      add_product st prod = Except.ok (pid, st2) → ReachableNoImport st2
  | order {st o oid st2} : ReachableNoImport st →
      add_order st o = Except.ok (oid, st2) → ReachableNoImport st2

/-! ## Helper lemmas about the model operations -/

/-- Inversion of a successful `mkCustomer`: both patterns matched and the
resulting object carries the given fields. -/
theorem mkCustomer_ok {n e p c i} {cust : Customer}
    (h : mkCustomer n e p c i = Except.ok cust) :
    email_match e = true ∧ phone_match p = true ∧ cust = ⟨n, e, p, c, i⟩ := by
  by_cases he : email_match e = true
  · by_cases hp : phone_match p = true
    · refine ⟨he, hp, ?_⟩
      simp [mkCustomer, he, hp] at h
      exact h.symm
    · simp [mkCustomer, he, Bool.eq_false_iff.mpr hp] at h
  · simp [mkCustomer, Bool.eq_false_iff.mpr he] at h

/-- Inversion of a successful `mkProduct`: the price is non-negative and
the resulting object carries the given fields. -/
theorem mkProduct_ok {n sk i} {pr : ℚ} {prod : Product}
    (h : mkProduct n pr sk i = Except.ok prod) :
    0 ≤ pr ∧ prod = ⟨n, pr, sk, i⟩ := by
  by_cases hpr : pr < 0
  · simp [mkProduct, hpr] at h
  · refine ⟨le_of_not_lt hpr, ?_⟩
    simp [mkProduct, hpr] at h
    exact h.symm

/-- Inversion of a successful `add_customer`. -/
theorem add_customer_ok {st : DBState} {c : Customer} {cid : Int} {st2 : DBState}
    (h : add_customer st c = Except.ok (cid, st2)) :
    cid = st.nextCustomerId
    ∧ st2 = { st with
        customers := st.customers ++ [⟨st.nextCustomerId, c.name, c.email, c.phone, c.city⟩]
        nextCustomerId := st.nextCustomerId + 1 } := by
  by_cases hc : (st.customers.any fun row => row.email == c.email) = true
  · simp [add_customer, hc] at h
  · simp [add_customer, hc] at h
    exact ⟨h.1.symm, h.2.symm⟩

/-- Inversion of a successful `add_product`. -/
theorem add_product_ok {st : DBState} {p : Product} {pid : Int} {st2 : DBState}
    (h : add_product st p = Except.ok (pid, st2)) :
    pid = st.nextProductId
    ∧ st2 = { st with
        products := st.products ++ [⟨st.nextProductId, p.name, p.price, p.sku⟩]
        nextProductId := st.nextProductId + 1 } := by
  by_cases hc : (st.products.any fun row => row.sku == p.sku) = true
  · simp [add_product, hc] at h
  · simp [add_product, hc] at h
    exact ⟨h.1.symm, h.2.symm⟩

/-- Inversion of a successful `add_order`. -/
theorem add_order_ok {st : DBState} {o : Order} {oid : Int} {st2 : DBState}
    (h : add_order st o = Except.ok (oid, st2)) :
    oid = st.nextOrderId
    ∧ freshKeysB pkKey st.order_items
        (o.items.map fun it =>
          OrderItemRow.mk st.nextOrderId it.product_id it.quantity it.unit_price) = true
    ∧ st2 = { st with
        orders := st.orders ++ [⟨st.nextOrderId, o.customer_id, o.created_at, o.status⟩]
        order_items := st.order_items
          ++ o.items.map (fun it =>
               OrderItemRow.mk st.nextOrderId it.product_id it.quantity it.unit_price)
        nextOrderId := st.nextOrderId + 1 } := by
  by_cases hc : freshKeysB pkKey st.order_items
      (o.items.map fun it =>
        OrderItemRow.mk st.nextOrderId it.product_id it.quantity it.unit_price) = true
  · simp only [add_order, hc, if_true] at h
    obtain ⟨h1, h2⟩ := Prod.mk.injEq .. ▸ (Except.ok.injEq .. ▸ h)
    exact ⟨h1.symm, hc, h2.symm⟩
  · simp only [add_order, Bool.eq_false_iff.mpr hc, if_false] at h
    simp at h

/-- Inversion of a successful `import_from_csv_json`. -/
theorem import_ok {st : DBState} {f : TableFiles} {st2 : DBState}
    (h : import_from_csv_json st f = Except.ok st2) :
    freshKeysB CustomerRow.id st.customers (f.customers.getD []) = true
    ∧ freshKeysB CustomerRow.email st.customers (f.customers.getD []) = true
    ∧ freshKeysB ProductRow.id st.products (f.products.getD []) = true
    ∧ freshKeysB ProductRow.sku st.products (f.products.getD []) = true
    ∧ freshKeysB OrderRow.id st.orders (f.orders.getD []) = true
    ∧ freshKeysB pkKey st.order_items (f.order_items.getD []) = true
    ∧ st2.customers = st.customers ++ f.customers.getD []
    ∧ st2.products = st.products ++ f.products.getD []
    ∧ st2.orders = st.orders ++ f.orders.getD []
    ∧ st2.order_items = st.order_items ++ f.order_items.getD [] := by
  by_cases hc : (freshKeysB CustomerRow.id st.customers (f.customers.getD [])
      && freshKeysB CustomerRow.email st.customers (f.customers.getD [])
      && freshKeysB ProductRow.id st.products (f.products.getD [])
      && freshKeysB ProductRow.sku st.products (f.products.getD [])
      && freshKeysB OrderRow.id st.orders (f.orders.getD [])
      && freshKeysB pkKey st.order_items (f.order_items.getD [])) = true
  · simp only [Bool.and_eq_true] at hc
    obtain ⟨⟨⟨⟨⟨h1, h2⟩, h3⟩, h4⟩, h5⟩, h6⟩ := hc
    simp only [import_from_csv_json, h1, h2, h3, h4, h5, h6, Bool.and_self, if_true] at h
    obtain rfl : _ = st2 := Except.ok.inj h
    exact ⟨h1, h2, h3, h4, h5, h6, rfl, rfl, rfl, rfl⟩
  · simp only [import_from_csv_json] at h
    rw [if_neg] at h
    · exact absurd h (by simp)
    · simpa using hc

/-! ## Rounding lemmas -/

/-- Half-to-even rounding is the identity on integers. -/
theorem roundHalfEven_intCast (n : Int) : roundHalfEven (n : ℚ) = n := by
  have hfl : ⌊(n : ℚ)⌋ = n := Int.floor_intCast n
  simp only [roundHalfEven, hfl]
  norm_num

/-- Rounding `round2` is the identity on integer multiples of `1/100`. -/
theorem round2_div100 (n : Int) : round2 ((n : ℚ) / 100) = (n : ℚ) / 100 := by
  have h : (100 : ℚ) * ((n : ℚ) / 100) = (n : ℚ) := by
    field_simp
  rw [round2, h, roundHalfEven_intCast]

/-- Every subtotal is an integer multiple of `1/100`. -/
theorem subtotal_eq_div100 (it : OrderItem) :
    it.subtotal = ((roundHalfEven (100 * ((it.quantity : ℚ) * it.unit_price)) : ℚ)) / 100 :=
  rfl

/-- The sum of the subtotals of a list of items is an integer multiple of
`1/100`. -/
theorem sum_subtotal_div100 (l : List OrderItem) :
    (l.map OrderItem.subtotal).sum
      = (((l.map fun it =>
            roundHalfEven (100 * ((it.quantity : ℚ) * it.unit_price))).sum : Int) : ℚ) / 100 := by
  induction l with
  | nil => simp
  | cons it t ih =>
      simp only [List.map_cons, List.sum_cons, ih, subtotal_eq_div100, Int.cast_add]
      ring

/-- Value `Order.total` is the plain sum of the item subtotals: the outer
`round(..., 2)` does not move the value, because the sum is already an
integer multiple of `1/100`. -/
theorem total_eq_sum_subtotal (o : Order) :
    o.total = (o.items.map OrderItem.subtotal).sum := by
  rw [Order.total, sum_subtotal_div100, round2_div100, ← sum_subtotal_div100]

/-! ## Claims C9, C4, C5, C3 -/

/-- C9: constructing a Product with a negative price raises
`ValidationError`; constructing one with price exactly `0` succeeds. -/
theorem c9_product_price_validation (name sk : Str) (price : ℚ) (idv : Option Int) :
    (price < 0 → mkProduct name price sk idv
        = Except.error (ModelError.validationError "Цена не может быть отрицательной".data))
  ∧ (price = 0 → mkProduct name price sk idv = Except.ok ⟨name, price, sk, idv⟩) := by
  constructor
  · intro h
    simp [mkProduct, h]
  · intro h
    subst h
    simp [mkProduct]

/-- Witness for C9 at concrete prices `-1` and `0`. -/
theorem c9_witness :
    mkProduct "X".data (-1) "S1".data none
        = Except.error (ModelError.validationError "Цена не может быть отрицательной".data)
  ∧ mkProduct "X".data 0 "S1".data none
        = Except.ok ⟨"X".data, 0, "S1".data, none⟩ :=
  ⟨(c9_product_price_validation "X".data "S1".data (-1) none).1 (by norm_num),
   (c9_product_price_validation "X".data "S1".data 0 none).2 rfl⟩

/-- C4: `add_item` with non-positive quantity raises `ValidationError` and
leaves the item list unchanged; with positive quantity it appends the item
at the end. -/
theorem c4_add_item_validation (o : Order) (it : OrderItem) :
    (it.quantity ≤ 0 →
      o.add_item it
        = (o, some (ModelError.validationError "Количество должно быть положительным".data))
      ∧ (o.add_item it).1.items = o.items)
  ∧ (0 < it.quantity → o.add_item it = ({ o with items := o.items ++ [it] }, none)) := by
  constructor
  · intro h
    constructor
    · simp [Order.add_item, h]
    · simp [Order.add_item, h]
  · intro h
    simp [Order.add_item, not_le.mpr h]

/-- Witness for C4: a zero-quantity item is rejected without touching the
items, a quantity-2 item is appended. -/
theorem c4_witness :
    ((Order.mk 1 [] [] [] none).add_item ⟨1, 0, 1⟩
        = (Order.mk 1 [] [] [] none,
           some (ModelError.validationError "Количество должно быть положительным".data))
      ∧ ((Order.mk 1 [] [] [] none).add_item ⟨1, 0, 1⟩).1.items = (Order.mk 1 [] [] [] none).items)
  ∧ (Order.mk 1 [] [] [] none).add_item ⟨1, 2, 1⟩
      = (Order.mk 1 [] [⟨1, 2, 1⟩] [] none, none) :=
  ⟨(c4_add_item_validation (Order.mk 1 [] [] [] none) ⟨1, 0, 1⟩).1 (by norm_num),
   (c4_add_item_validation (Order.mk 1 [] [] [] none) ⟨1, 2, 1⟩).2 (by norm_num)⟩

/-- C5: a successful `add_item` increases `total` by exactly
`round(quantity * unit_price, 2)`. -/
theorem c5_total_increases_by_subtotal (o : Order) (it : OrderItem)
    (h : 0 < it.quantity) :
    ((o.add_item it).1).total = o.total + it.subtotal := by
  have hq : ¬ it.quantity ≤ 0 := not_le.mpr h
  rw [Order.add_item, if_neg hq]
  rw [total_eq_sum_subtotal, total_eq_sum_subtotal]
  simp [List.map_append, List.sum_append]

/-- Witness for C5 on a concrete order and item. -/
theorem c5_witness :
    (((Order.mk 7 [] [⟨1, 1, 1/10⟩, ⟨2, 1, 1/10⟩] [] none).add_item ⟨3, 2, 3/2⟩).1).total
      = (Order.mk 7 [] [⟨1, 1, 1/10⟩, ⟨2, 1, 1/10⟩] [] none).total
        + OrderItem.subtotal ⟨3, 2, 3/2⟩ :=
  c5_total_increases_by_subtotal (Order.mk 7 [] [⟨1, 1, 1/10⟩, ⟨2, 1, 1/10⟩] [] none)
    ⟨3, 2, 3/2⟩ (by norm_num)

/-! ## Claims C3 and C6 -/

/-- C3 failing input: on a freshly initialized database with no customers at
all, inserting an order whose `customer_id` is `999` succeeds and returns
order id `1`.  `PRAGMA foreign_keys = ON` was executed only on the
connection opened by `init_db`; the pragma is per-connection, so the fresh
connection of `add_order` does not enforce the declared foreign key and no
storage-constraint error is raised, contrary to the claim. -/
theorem c3_fk_violation_not_detected :
    init_db.customers = []
  ∧ add_order init_db ⟨999, "2024-01-01T00:00:00".data, [], "new".data, none⟩
      = Except.ok (1,
          { customers := []
            products := []
            orders := [⟨1, 999, "2024-01-01T00:00:00".data, "new".data⟩]
            order_items := []
            nextCustomerId := 1
            nextProductId := 1
            nextOrderId := 2 }) :=
  ⟨rfl, rfl⟩

/-- C6 counterexample: a bulk import persists a customers row whose email
`"x"` matches nothing like the required pattern — `import_from_csv_json`
performs no domain validation, so the claimed invariant fails on this
reachable state. -/
theorem c6_counterexample :
    import_from_csv_json init_db
        ⟨some [⟨1, "B".data, "x".data, "12345678".data, "C".data⟩], none, none, none⟩
      = Except.ok
          { customers := [⟨1, "B".data, "x".data, "12345678".data, "C".data⟩]
            products := []
            orders := []
            order_items := []
            nextCustomerId := 2
            nextProductId := 1
            nextOrderId := 1 }
  ∧ email_match "x".data = false :=
  ⟨rfl, by decide⟩

/-- C6 (amended): in every state reachable without the bulk import, every
customers row matches both validation patterns and every products row has a
non-negative price; bulk import performs no such validation (see the
counterexample). -/
theorem c6_validation_invariant_without_import (st : DBState)
    (h : ReachableNoImport st) :
    (∀ row ∈ st.customers, email_match row.email = true ∧ phone_match row.phone = true)
  ∧ (∀ row ∈ st.products, 0 ≤ row.price) := by
  induction h with
  | init => simp [init_db]
  | @customer st n e p c i cust cid st2 _ hmk hadd ih =>
      obtain ⟨he, hp, hcust⟩ := mkCustomer_ok hmk
      obtain ⟨-, hst2⟩ := add_customer_ok hadd
      subst hst2
      subst hcust
      refine ⟨?_, ih.2⟩
      intro row hrow
      rcases List.mem_append.mp hrow with hold | hnew
      · exact ih.1 row hold
      · rcases List.mem_singleton.mp hnew with rfl
        exact ⟨he, hp⟩
  | @product st n pr sk i prod pid st2 _ hmk hadd ih =>
      obtain ⟨hpr, hprod⟩ := mkProduct_ok hmk
      obtain ⟨-, hst2⟩ := add_product_ok hadd
      subst hst2
      subst hprod
      refine ⟨ih.1, ?_⟩
      intro row hrow
      rcases List.mem_append.mp hrow with hold | hnew
      · exact ih.2 row hold
      · rcases List.mem_singleton.mp hnew with rfl
        exact hpr
  | @order st o oid st2 _ hadd ih =>
      obtain ⟨-, -, hst2⟩ := add_order_ok hadd
      subst hst2
      exact ih

/-- Witness for the amended C6 on a concrete reachable state: a fresh
database into which one valid customer was inserted satisfies the
invariant at its single row. -/
theorem c6_witness :
    email_match ("ann@example.com".data) = true
  ∧ phone_match ("+1 555-0100".data) = true := by
  have hmk : mkCustomer "Ann".data "ann@example.com".data "+1 555-0100".data
      "Riga".data none
      = Except.ok ⟨"Ann".data, "ann@example.com".data, "+1 555-0100".data,
          "Riga".data, none⟩ := rfl
  have hadd : add_customer init_db
      ⟨"Ann".data, "ann@example.com".data, "+1 555-0100".data, "Riga".data, none⟩
      = Except.ok (1,
          { customers := init_db.customers
              ++ [⟨1, "Ann".data, "ann@example.com".data, "+1 555-0100".data, "Riga".data⟩]
            products := []
            orders := []
            order_items := []
            nextCustomerId := 2
            nextProductId := 1
            nextOrderId := 1 }) := rfl
  exact (c6_validation_invariant_without_import _
    (ReachableNoImport.customer ReachableNoImport.init hmk hadd)).1
    ⟨1, "Ann".data, "ann@example.com".data, "+1 555-0100".data, "Riga".data⟩
    (by simp [init_db])

/-! ## Claims C10 and C7 -/

/-- Unpacking of a true `freshKeysB`. -/
theorem freshKeysB_true {α β : Type} [DecidableEq β] {keyf : α → β}
    {existing new : List α} (h : freshKeysB keyf existing new = true) :
    (new.map keyf).Nodup ∧ (existing.map keyf).Disjoint (new.map keyf) := by
  rw [freshKeysB, Bool.and_eq_true, decide_eq_true_eq, decide_eq_true_eq] at h
  refine ⟨h.1, ?_⟩
  intro a ha hb
  obtain ⟨r, hr, rfl⟩ := List.mem_map.mp hb
  exact h.2 r hr ha

/-- C10: an order with two items for the same product violates the
`(order_id, product_id)` primary key, so `add_order` fails with an
IntegrityError; and in every reachable database state the
`(order_id, product_id)` pairs of `order_items` are pairwise distinct, so
each persisted order has at most one line item per product. -/
theorem c10_order_items_pk :
    (∀ (st : DBState) (o : Order),
        ¬ (o.items.map OrderItem.product_id).Nodup →
        ∃ e, add_order st o = Except.error e)
  ∧ (∀ st : DBState, Reachable st → (st.order_items.map pkKey).Nodup) := by
  constructor
  · intro st o hpids
    have hkeys : (o.items.map fun it =>
          OrderItemRow.mk st.nextOrderId it.product_id it.quantity it.unit_price).map pkKey
        = (o.items.map OrderItem.product_id).map (fun p => ((st.nextOrderId : Int), p)) := by
      simp [List.map_map]
      intro a ha
      rfl
    have hnd : ¬ ((o.items.map fun it =>
        OrderItemRow.mk st.nextOrderId it.product_id it.quantity it.unit_price).map pkKey).Nodup := by
      rw [hkeys]
      exact fun hn => hpids (List.Nodup.of_map _ hn)
    have hfk : freshKeysB pkKey st.order_items
        (o.items.map fun it =>
          OrderItemRow.mk st.nextOrderId it.product_id it.quantity it.unit_price) = false := by
      rw [freshKeysB, decide_eq_false hnd, Bool.false_and]
    refine ⟨DbError.integrityError
      "UNIQUE constraint failed: order_items.order_id, order_items.product_id".data, ?_⟩
    simp only [add_order, hfk, Bool.false_eq_true, if_false]
  · intro st h
    induction h with
    | init => simp [init_db]
    | @customer st n e p c i cust cid st2 _ hmk hadd ih =>
        obtain ⟨-, hst2⟩ := add_customer_ok hadd
        subst hst2
        exact ih
    | @product st n pr sk i prod pid st2 _ hmk hadd ih =>
        obtain ⟨-, hst2⟩ := add_product_ok hadd
        subst hst2
        exact ih
    | @order st o oid st2 _ hadd ih =>
        obtain ⟨-, hfk, hst2⟩ := add_order_ok hadd
        subst hst2
        obtain ⟨hnew, hdisj⟩ := freshKeysB_true hfk
        simp only [List.map_append]
        exact List.Nodup.append ih hnew hdisj
    | @importFiles st f st2 _ himp ih =>
        obtain ⟨-, -, -, -, -, hfk, -, -, -, hitems⟩ := import_ok himp
        rw [hitems]
        obtain ⟨hnew, hdisj⟩ := freshKeysB_true hfk
        simp only [List.map_append]
        exact List.Nodup.append ih hnew hdisj

/-- Witness for C10: a duplicated product in one order is rejected on a
fresh database, whose own `order_items` table is trivially duplicate-free. -/
theorem c10_witness :
    (∃ e, add_order init_db
        ⟨5, "2024-01-01T00:00:00".data, [⟨1, 1, 1⟩, ⟨1, 2, 1⟩], "new".data, none⟩
      = Except.error e)
  ∧ (init_db.order_items.map pkKey).Nodup :=
  ⟨c10_order_items_pk.1 init_db
      ⟨5, "2024-01-01T00:00:00".data, [⟨1, 1, 1⟩, ⟨1, 2, 1⟩], "new".data, none⟩
      (by decide),
   c10_order_items_pk.2 init_db Reachable.init⟩

/-- C7: exporting every table of a database state and importing the files
into a freshly initialized empty database reproduces exactly the original
rows of all four tables (the ids are carried inside the exported rows, so
they are reproduced verbatim, which in particular matches them up to
reassignment).  The hypotheses are the uniqueness constraints the source
state necessarily satisfies, since its own tables enforce them. -/
theorem c7_export_import_round_trip (st : DBState)
    (h1 : (st.customers.map CustomerRow.id).Nodup)
    (h2 : (st.customers.map CustomerRow.email).Nodup)
    (h3 : (st.products.map ProductRow.id).Nodup)
    (h4 : (st.products.map ProductRow.sku).Nodup)
    (h5 : (st.orders.map OrderRow.id).Nodup)
    (h6 : (st.order_items.map pkKey).Nodup) :
    ∃ st2, import_from_csv_json init_db (export_to_csv_json st) = Except.ok st2
      ∧ st2.customers = st.customers ∧ st2.products = st.products
      ∧ st2.orders = st.orders ∧ st2.order_items = st.order_items := by
  have hc1 : freshKeysB CustomerRow.id init_db.customers st.customers = true := by
    simp [freshKeysB, init_db, h1]
  have hc2 : freshKeysB CustomerRow.email init_db.customers st.customers = true := by
    simp [freshKeysB, init_db, h2]
  have hc3 : freshKeysB ProductRow.id init_db.products st.products = true := by
    simp [freshKeysB, init_db, h3]
  have hc4 : freshKeysB ProductRow.sku init_db.products st.products = true := by
    simp [freshKeysB, init_db, h4]
  have hc5 : freshKeysB OrderRow.id init_db.orders st.orders = true := by
    simp [freshKeysB, init_db, h5]
  have hc6 : freshKeysB pkKey init_db.order_items st.order_items = true := by
    simp [freshKeysB, init_db, h6]
  simp only [import_from_csv_json, export_to_csv_json, Option.getD_some,
    hc1, hc2, hc3, hc4, hc5, hc6, Bool.and_self, if_true]
  exact ⟨_, rfl, by simp [init_db], by simp [init_db], by simp [init_db], by simp [init_db]⟩

/-- Witness for C7 on a concrete one-row-per-table state. -/
theorem c7_witness :
    ∃ st2, import_from_csv_json init_db (export_to_csv_json
        ⟨[⟨1, "A".data, "a@b.cc".data, "1234567".data, "R".data⟩],
         [⟨1, "P".data, 5, "SKU1".data⟩],
         [⟨1, 1, "2024-01-01T00:00:00".data, "new".data⟩],
         [⟨1, 1, 2, 5⟩], 2, 2, 2⟩)
      = Except.ok st2
      ∧ st2.customers = [⟨1, "A".data, "a@b.cc".data, "1234567".data, "R".data⟩]
      ∧ st2.products = [⟨1, "P".data, 5, "SKU1".data⟩]
      ∧ st2.orders = [⟨1, 1, "2024-01-01T00:00:00".data, "new".data⟩]
      ∧ st2.order_items = [⟨1, 1, 2, 5⟩] :=
  c7_export_import_round_trip
    ⟨[⟨1, "A".data, "a@b.cc".data, "1234567".data, "R".data⟩],
     [⟨1, "P".data, 5, "SKU1".data⟩],
     [⟨1, 1, "2024-01-01T00:00:00".data, "new".data⟩],
     [⟨1, 1, 2, 5⟩], 2, 2, 2⟩
    (by decide) (by decide) (by decide) (by decide) (by decide) (by decide)

/-! ## Claim C8: quicksort_orders does not mutate its input -/

/-- Allocation leaves every existing cell unchanged. -/
theorem Heap.read_alloc {α : Type} (h : Heap α) (xs : List α) {q : Nat}
    (hq : q < h.cells.length) : (h.alloc xs).2.read q = h.read q := by
  simp only [Heap.alloc, Heap.read]
  exact List.getD_append _ _ _ _ hq

/-- Allocation grows the heap by one cell. -/
theorem Heap.length_alloc {α : Type} (h : Heap α) (xs : List α) :
    (h.alloc xs).2.cells.length = h.cells.length + 1 := by
  simp [Heap.alloc]

/-- The heap only ever grows during `quicksort_orders_heap`. -/
theorem quicksort_orders_heap_grows {α K : Type} [Inhabited α] [LinearOrder K]
    (key : α → K) :
    ∀ (fuel p : Nat) (h : Heap α),
      h.cells.length ≤ ((quicksort_orders_heap key fuel p h).2).cells.length := by
  intro fuel
  induction fuel with
  | zero =>
      intro p h
      simp [quicksort_orders_heap, Heap.length_alloc]
  | succ fuel ih =>
      intro p h
      rw [quicksort_orders_heap]
      by_cases hb : (h.read p).length ≤ 1
      · simp only [hb, if_true]
        simp [Heap.length_alloc]
      · simp only [hb, if_false]
        have step : ∀ (hh : Heap α) (xs : List α),
            hh.cells.length ≤ (hh.alloc xs).2.cells.length := by
          intro hh xs
          rw [Heap.length_alloc]
          omega
        exact le_trans (step _ _) (le_trans (step _ _) (le_trans (step _ _)
          (le_trans (ih _ _) (le_trans (ih _ _) (step _ _)))))

/-- C8: `quicksort_orders` applies no mutating operation to its argument:
in the heap model, after the call every previously existing list object —
in particular the input list at address `p` — holds exactly the elements it
held before the call, in the same order. -/
theorem c8_quicksort_orders_no_mutation {K : Type} [LinearOrder K]
    (key : Order → K) :
    ∀ (fuel p : Nat) (h : Heap Order) (q : Nat), q < h.cells.length →
      ((quicksort_orders_heap key fuel p h).2).read q = h.read q := by
  intro fuel
  induction fuel with
  | zero =>
      intro p h q hq
      simp only [quicksort_orders_heap]
      exact Heap.read_alloc _ _ hq
  | succ fuel ih =>
      intro p h q hq
      rw [quicksort_orders_heap]
      by_cases hb : (h.read p).length ≤ 1
      · simp only [hb, if_true]
        exact Heap.read_alloc _ _ hq
      · simp only [hb, if_false]
        have step : ∀ (hh : Heap Order) (xs : List Order),
            hh.cells.length ≤ (hh.alloc xs).2.cells.length := by
          intro hh xs
          rw [Heap.length_alloc]
          omega
        exact Eq.trans
          (Heap.read_alloc _ _ (lt_of_lt_of_le hq (le_trans (step _ _)
            (le_trans (step _ _) (le_trans (step _ _)
              (le_trans (quicksort_orders_heap_grows key fuel _ _)
                (quicksort_orders_heap_grows key fuel _ _)))))))
          (Eq.trans
            (ih _ _ q (lt_of_lt_of_le hq (le_trans (step _ _)
              (le_trans (step _ _) (le_trans (step _ _)
                (quicksort_orders_heap_grows key fuel _ _))))))
            (Eq.trans
              (ih _ _ q (lt_of_lt_of_le hq (le_trans (step _ _)
                (le_trans (step _ _) (step _ _)))))
              (Eq.trans
                (Heap.read_alloc _ _ (lt_of_lt_of_le hq
                  (le_trans (step _ _) (step _ _))))
                (Eq.trans
                  (Heap.read_alloc _ _ (lt_of_lt_of_le hq (step _ _)))
                  (Heap.read_alloc _ _ hq)))))

/-- Witness for C8: a three-order input list at address 0 is untouched. -/
theorem c8_witness :
    ((quicksort_orders_heap (fun o : Order => o.customer_id) 5 0
        (Heap.mk [[⟨3, [], [], [], none⟩, ⟨1, [], [], [], none⟩, ⟨2, [], [], [], none⟩]])).2).read 0
      = Heap.read
          (Heap.mk [[⟨3, [], [], [], none⟩, ⟨1, [], [], [], none⟩, ⟨2, [], [], [], none⟩]]) 0 :=
  c8_quicksort_orders_no_mutation (fun o : Order => o.customer_id) 5 0
    (Heap.mk [[⟨3, [], [], [], none⟩, ⟨1, [], [], [], none⟩, ⟨2, [], [], [], none⟩]]) 0
    (by decide)

/-! ## Claim C1: customer validation -/

/-- A matching domain part decomposes as nonempty-domain, dot, nonempty
tld. -/
theorem domainTldMatch_decomp {r : Str} (h : domainTldMatch r = true) :
    ∃ d t, r = d ++ '.' :: t ∧ d ≠ [] ∧ t ≠ [] := by
  obtain ⟨j, hj, hbody⟩ := List.any_eq_true.mp h
  cases e : r.drop j with
  | nil =>
      rw [e] at hbody
      simp at hbody
  | cons c t =>
      rw [e] at hbody
      simp only [Bool.and_eq_true, beq_iff_eq, Bool.not_eq_true',
        List.isEmpty_eq_false, decide_eq_true_eq] at hbody
      obtain ⟨⟨⟨⟨hc, hne⟩, -⟩, -⟩, hlen⟩ := hbody
      subst hc
      refine ⟨r.take j, t, ?_, hne, ?_⟩
      · conv_lhs => rw [← List.take_append_drop j r]
        rw [e]
      · intro hnil
        subst hnil
        simp at hlen

/-- A matching email core decomposes as nonempty local part, `'@'`,
nonempty domain, dot, nonempty tld. -/
theorem emailCoreMatch_decomp {s : Str} (h : emailCoreMatch s = true) :
    ∃ l d t, s = l ++ '@' :: (d ++ '.' :: t) ∧ l ≠ [] ∧ d ≠ [] ∧ t ≠ [] := by
  rw [emailCoreMatch] at h
  cases e : s.dropWhile isLocalChar with
  | nil =>
      rw [e] at h
      simp at h
  | cons c rest =>
      rw [e] at h
      simp only [Bool.and_eq_true, beq_iff_eq, Bool.not_eq_true',
        List.isEmpty_eq_false] at h
      obtain ⟨⟨hc, hl⟩, hdom⟩ := h
      subst hc
      obtain ⟨d, t, hrest, hd, ht⟩ := domainTldMatch_decomp hdom
      refine ⟨s.takeWhile isLocalChar, d, t, ?_, hl, hd, ht⟩
      conv_lhs => rw [← List.takeWhile_append_dropWhile isLocalChar s]
      rw [e, hrest]

/-- Introduction rule for `shapeTail`. -/
theorem shapeTail_intro {r d t : Str} (hr : r = d ++ '.' :: t) (hd : d ≠ [])
    (ht : t ≠ []) : shapeTail r = true := by
  subst hr
  refine List.any_eq_true.mpr ⟨d.length, List.mem_range.mpr ?_, ?_⟩
  · simp only [List.length_append, List.length_cons]
    omega
  · rw [List.drop_left]
    simp only [Bool.and_eq_true, beq_iff_eq, Bool.not_eq_true',
      List.isEmpty_eq_false]
    rw [List.take_left]
    exact ⟨⟨trivial, hd⟩, ht⟩

/-- Introduction rule for `hasEmailShape`. -/
theorem hasEmailShape_intro {s l d t : Str}
    (hs : s = l ++ '@' :: (d ++ '.' :: t)) (hl : l ≠ []) (hd : d ≠ [])
    (ht : t ≠ []) : hasEmailShape s = true := by
  subst hs
  refine List.any_eq_true.mpr ⟨l.length, List.mem_range.mpr ?_, ?_⟩
  · simp only [List.length_append, List.length_cons]
    omega
  · rw [List.drop_left]
    simp only [Bool.and_eq_true, beq_iff_eq, Bool.not_eq_true',
      List.isEmpty_eq_false]
    rw [List.take_left]
    exact ⟨⟨trivial, hl⟩, shapeTail_intro rfl hd ht⟩

/-- Every email accepted by `EMAIL_RE` has the `"@domain.tld"` shape. -/
theorem email_match_shape {s : Str} (h : email_match s = true) :
    hasEmailShape s = true := by
  rw [email_match, Bool.or_eq_true] at h
  rcases h with hcore | hnl
  · obtain ⟨l, d, t, hs, hl, hd, ht⟩ := emailCoreMatch_decomp hcore
    exact hasEmailShape_intro hs hl hd ht
  · rw [Bool.and_eq_true, beq_iff_eq] at hnl
    obtain ⟨hlast, hcore⟩ := hnl
    obtain ⟨l, d, t, hs, hl, hd, ht⟩ := emailCoreMatch_decomp hcore
    have hne : s ≠ [] := by
      intro hnil
      subst hnil
      simp at hlast
    have hgl : s.getLast hne = '\n' := by
      have := List.getLast?_eq_getLast s hne
      rw [hlast] at this
      exact (Option.some.inj this).symm
    have hsplit : s = s.dropLast ++ ['\n'] := by
      conv_lhs => rw [← List.dropLast_append_getLast hne]
      rw [hgl]
    refine hasEmailShape_intro (l := l) (d := d) (t := t ++ ['\n']) ?_ hl hd ?_
    · rw [hsplit, hs]
      simp
    · simp

/-- Dropping the last character cannot lengthen the part of the phone the
repetition must cover. -/
theorem stripPlus_dropLast_length (s : Str) :
    (stripPlus s.dropLast).length ≤ (stripPlus s).length := by
  cases s with
  | nil => simp [stripPlus]
  | cons c t =>
      by_cases hc : (c == '+') = true
      · cases t with
        | nil => simp [stripPlus, hc]
        | cons x t2 =>
            simp only [stripPlus, List.dropLast_cons₂, hc, if_true]
            rw [List.length_dropLast]
            simp only [List.length_cons]
            omega
      · cases t with
        | nil => simp [stripPlus, hc]
        | cons x t2 =>
            simp [stripPlus, hc]

/-- A phone with fewer than 7 significant characters (those after the
optional leading `'+'`) never matches `PHONE_RE`. -/
theorem phone_match_short {p : Str} (h : (stripPlus p).length < 7) :
    phone_match p = false := by
  have hcore : ∀ q : Str, (stripPlus q).length < 7 → phoneCoreMatch q = false := by
    intro q hq
    rw [phoneCoreMatch, decide_eq_false (by omega), Bool.false_and]
  rw [phone_match, hcore p h, Bool.false_or]
  by_cases hl : (p.getLast? == some '\n') = true
  · rw [hl, Bool.true_and]
    exact hcore _ (lt_of_le_of_lt (stripPlus_dropLast_length p) h)
  · rw [Bool.eq_false_iff.mpr hl, Bool.false_and]

/-- C1: a customer with email and phone matching the required patterns is
constructed successfully; an email lacking the `"@domain.tld"` shape makes
construction raise `ValidationError`, and so does a phone with fewer than
7 significant characters. -/
theorem c1_customer_validation (name email phone city : Str) (idv : Option Int) :
    (email_match email = true → phone_match phone = true →
        mkCustomer name email phone city idv = Except.ok ⟨name, email, phone, city, idv⟩)
  ∧ (hasEmailShape email = false →
        mkCustomer name email phone city idv
          = Except.error (ModelError.validationError ("Некорректный email: ".data ++ email)))
  ∧ ((stripPlus phone).length < 7 →
        ∃ msg, mkCustomer name email phone city idv
          = Except.error (ModelError.validationError msg)) := by
  refine ⟨?_, ?_, ?_⟩
  · intro he hp
    simp [mkCustomer, he, hp]
  · intro hshape
    have he : email_match email = false := by
      by_cases h : email_match email = true
      · exact absurd (email_match_shape h) (by simp [hshape])
      · exact Bool.eq_false_iff.mpr h
    simp [mkCustomer, he]
  · intro hshort
    have hp : phone_match phone = false := phone_match_short hshort
    by_cases he : email_match email = true
    · exact ⟨"Некорректный номер телефона: ".data ++ phone, by simp [mkCustomer, he, hp]⟩
    · exact ⟨"Некорректный email: ".data ++ email,
        by simp [mkCustomer, Bool.eq_false_iff.mpr he]⟩

/-- Witness for C1: `"ann@example.com"` with `"+1 555-0100"` is accepted;
`"not-an-email"` (no `"@domain.tld"` shape) is rejected; the phone `"123"`
(3 significant characters) is rejected. -/
theorem c1_witness :
    mkCustomer "Ann".data "ann@example.com".data "+1 555-0100".data "Riga".data none
      = Except.ok ⟨"Ann".data, "ann@example.com".data, "+1 555-0100".data, "Riga".data, none⟩
  ∧ mkCustomer "Bob".data "not-an-email".data "12345678".data "X".data none
      = Except.error
          (ModelError.validationError ("Некорректный email: ".data ++ "not-an-email".data))
  ∧ (∃ msg, mkCustomer "Eve".data "ann@example.com".data "123".data "X".data none
      = Except.error (ModelError.validationError msg)) :=
  ⟨(c1_customer_validation "Ann".data "ann@example.com".data "+1 555-0100".data
      "Riga".data none).1 (by decide) (by decide),
   (c1_customer_validation "Bob".data "not-an-email".data "12345678".data
      "X".data none).2.1 (by decide),
   (c1_customer_validation "Eve".data "ann@example.com".data "123".data
      "X".data none).2.2 (by decide)⟩

/-! ## Claim C2: functional correctness of quicksort_orders -/

/-- Unfolding of `quicksort_orders` on a list of length at least 2, with the
pivot key abstracted. -/
theorem quicksort_orders_unfold {α K : Type} [LinearOrder K] (key : α → K)
    (l : List α) (hb : ¬ l.length ≤ 1) (pk : K)
    (hpk : ∃ hp : l.length / 2 < l.length, pk = key (l.get ⟨l.length / 2, hp⟩)) :
    quicksort_orders l key
      = quicksort_orders (l.filter fun o => decide (key o < pk)) key
        ++ (l.filter fun o => decide (key o = pk))
        ++ quicksort_orders (l.filter fun o => decide (pk < key o)) key := by
  obtain ⟨hp, rfl⟩ := hpk
  conv_lhs => rw [quicksort_orders]
  rw [dif_neg hb]

/-- The three partitions of the quicksort step together are a permutation
of the input. -/
theorem filter_partition_perm {α K : Type} [LinearOrder K] (key : α → K)
    (pk : K) (l : List α) :
    List.Perm
      ((l.filter fun o => decide (key o < pk))
        ++ ((l.filter fun o => decide (key o = pk))
          ++ (l.filter fun o => decide (pk < key o)))) l := by
  have h1 := List.filter_append_perm (fun o => decide (key o < pk)) l
  have h2 := List.filter_append_perm (fun o => decide (key o = pk))
    (l.filter fun o => !decide (key o < pk))
  rw [List.filter_filter, List.filter_filter] at h2
  have e1 : l.filter (fun a => decide (key a = pk) && !decide (key a < pk))
      = l.filter fun o => decide (key o = pk) := by
    apply List.filter_congr
    intro x _
    by_cases hx : key x = pk
    · simp [hx]
    · simp [hx]
  have e2 : l.filter (fun a => !decide (key a = pk) && !decide (key a < pk))
      = l.filter fun o => decide (pk < key o) := by
    apply List.filter_congr
    intro x _
    rcases lt_trichotomy (key x) pk with hx | hx | hx
    · simp [hx, ne_of_lt hx, asymm hx]
    · simp [hx]
    · simp [hx, hx.ne', asymm hx]
  rw [e1, e2] at h2
  exact List.Perm.trans (List.Perm.append (List.Perm.refl _) h2) h1

/-- Fueled permutation property of `quicksort_orders`. -/
theorem quicksort_orders_perm_aux {α K : Type} [LinearOrder K] (key : α → K) :
    ∀ (n : Nat) (l : List α), l.length ≤ n →
      List.Perm (quicksort_orders l key) l := by
  intro n
  induction n with
  | zero =>
      intro l hl
      obtain rfl : l = [] := List.eq_nil_of_length_eq_zero (by omega)
      rw [quicksort_orders]
      rfl
  | succ n ih =>
      intro l hl
      by_cases hb : l.length ≤ 1
      · rw [quicksort_orders, dif_pos hb]
      · have hp : l.length / 2 < l.length := Nat.div_lt_self (by omega) (by omega)
        have hmem : l.get ⟨l.length / 2, hp⟩ ∈ l := List.get_mem _ _ _
        have hlt : (l.filter fun o =>
            decide (key o < key (l.get ⟨l.length / 2, hp⟩))).length < l.length :=
          List.length_filter_lt_length_iff_exists.mpr ⟨_, hmem, by simp⟩
        have hgt : (l.filter fun o =>
            decide (key (l.get ⟨l.length / 2, hp⟩) < key o)).length < l.length :=
          List.length_filter_lt_length_iff_exists.mpr ⟨_, hmem, by simp⟩
        rw [quicksort_orders_unfold key l hb _ ⟨hp, rfl⟩, List.append_assoc]
        exact List.Perm.trans
          (List.Perm.append (ih _ (by omega))
            (List.Perm.append (List.Perm.refl _) (ih _ (by omega))))
          (filter_partition_perm key _ l)

/-- Function `quicksort_orders` returns a permutation of its input. -/
theorem quicksort_orders_perm {α K : Type} [LinearOrder K] (key : α → K)
    (l : List α) : List.Perm (quicksort_orders l key) l :=
  quicksort_orders_perm_aux key l.length l le_rfl

/-- Fueled sortedness of `quicksort_orders`: the output is pairwise
non-decreasing under the key. -/
theorem quicksort_orders_sorted_aux {α K : Type} [LinearOrder K] (key : α → K) :
    ∀ (n : Nat) (l : List α), l.length ≤ n →
      List.Pairwise (fun a b => key a ≤ key b) (quicksort_orders l key) := by
  intro n
  induction n with
  | zero =>
      intro l hl
      obtain rfl : l = [] := List.eq_nil_of_length_eq_zero (by omega)
      rw [quicksort_orders]
      simp
  | succ n ih =>
      intro l hl
      by_cases hb : l.length ≤ 1
      · rw [quicksort_orders, dif_pos hb]
        cases l with
        | nil => simp
        | cons a t =>
            cases t with
            | nil => simp
            | cons b t2 => simp at hb
      · have hp : l.length / 2 < l.length := Nat.div_lt_self (by omega) (by omega)
        have hmem : l.get ⟨l.length / 2, hp⟩ ∈ l := List.get_mem _ _ _
        have hlt : (l.filter fun o =>
            decide (key o < key (l.get ⟨l.length / 2, hp⟩))).length < l.length :=
          List.length_filter_lt_length_iff_exists.mpr ⟨_, hmem, by simp⟩
        have hgt : (l.filter fun o =>
            decide (key (l.get ⟨l.length / 2, hp⟩) < key o)).length < l.length :=
          List.length_filter_lt_length_iff_exists.mpr ⟨_, hmem, by simp⟩
        rw [quicksort_orders_unfold key l hb _ ⟨hp, rfl⟩, List.append_assoc,
          List.pairwise_append]
        refine ⟨ih _ (by omega), ?_, ?_⟩
        · rw [List.pairwise_append]
          refine ⟨?_, ih _ (by omega), ?_⟩
          · apply List.pairwise_of_forall_mem_list
            intro a ha b hb2
            rw [List.mem_filter] at ha hb2
            rw [of_decide_eq_true ha.2, of_decide_eq_true hb2.2]
          · intro a ha b hb2
            rw [List.mem_filter] at ha
            have hbm := (quicksort_orders_perm key _).mem_iff.mp hb2
            rw [List.mem_filter] at hbm
            rw [of_decide_eq_true ha.2]
            exact le_of_lt (of_decide_eq_true hbm.2)
        · intro a ha b hb2
          have ham := (quicksort_orders_perm key _).mem_iff.mp ha
          rw [List.mem_filter] at ham
          have h1 := of_decide_eq_true ham.2
          rcases List.mem_append.mp hb2 with hbm | hbr
          · rw [List.mem_filter] at hbm
            have h2 := of_decide_eq_true hbm.2
            rw [h2]
            exact le_of_lt h1
          · have hbm := (quicksort_orders_perm key _).mem_iff.mp hbr
            rw [List.mem_filter] at hbm
            exact le_of_lt (lt_trans h1 (of_decide_eq_true hbm.2))

/-- The output of `quicksort_orders` is non-decreasing under the key. -/
theorem quicksort_orders_sorted {α K : Type} [LinearOrder K] (key : α → K)
    (l : List α) :
    List.Pairwise (fun a b => key a ≤ key b) (quicksort_orders l key) :=
  quicksort_orders_sorted_aux key l.length l le_rfl

/-- Filter of a conjunction whose second component is implied by the
first. -/
theorem filter_and_of_implied {α : Type} {p q : α → Bool}
    (h : ∀ x, p x = true → q x = true) (l : List α) :
    l.filter (fun a => p a && q a) = l.filter p := by
  apply List.filter_congr
  intro x _
  by_cases hx : p x = true
  · simp [hx, h x hx]
  · simp [Bool.eq_false_iff.mpr hx]

/-- Filter of a contradictory conjunction. -/
theorem filter_and_of_refuted {α : Type} {p q : α → Bool}
    (h : ∀ x, p x = true → q x = false) (l : List α) :
    l.filter (fun a => p a && q a) = [] := by
  have he : l.filter (fun a => p a && q a) = l.filter fun _ => false := by
    apply List.filter_congr
    intro x _
    by_cases hx : p x = true
    · simp [hx, h x hx]
    · simp [Bool.eq_false_iff.mpr hx]
  rw [he, List.filter_false]

/-- Fueled stability of `quicksort_orders`: for every key value `k`, the
elements whose key is `k` appear in the output exactly as they appear in
the input. -/
theorem quicksort_orders_stable_aux {α K : Type} [LinearOrder K] (key : α → K) :
    ∀ (n : Nat) (l : List α), l.length ≤ n → ∀ k : K,
      (quicksort_orders l key).filter (fun o => decide (key o = k))
        = l.filter fun o => decide (key o = k) := by
  intro n
  induction n with
  | zero =>
      intro l hl k
      obtain rfl : l = [] := List.eq_nil_of_length_eq_zero (by omega)
      rw [quicksort_orders]
      rfl
  | succ n ih =>
      intro l hl k
      by_cases hb : l.length ≤ 1
      · rw [quicksort_orders, dif_pos hb]
      · have hp : l.length / 2 < l.length := Nat.div_lt_self (by omega) (by omega)
        have hmem : l.get ⟨l.length / 2, hp⟩ ∈ l := List.get_mem _ _ _
        have hlt : (l.filter fun o =>
            decide (key o < key (l.get ⟨l.length / 2, hp⟩))).length < l.length :=
          List.length_filter_lt_length_iff_exists.mpr ⟨_, hmem, by simp⟩
        have hgt : (l.filter fun o =>
            decide (key (l.get ⟨l.length / 2, hp⟩) < key o)).length < l.length :=
          List.length_filter_lt_length_iff_exists.mpr ⟨_, hmem, by simp⟩
        rw [quicksort_orders_unfold key l hb _ ⟨hp, rfl⟩, List.filter_append,
          List.filter_append, ih _ (by omega) k, ih _ (by omega) k,
          List.filter_filter, List.filter_filter, List.filter_filter]
        rcases lt_trichotomy k (key (l.get ⟨l.length / 2, hp⟩)) with hk | hk | hk
        · rw [filter_and_of_implied
              (fun x hx => by rw [of_decide_eq_true hx]; exact decide_eq_true hk),
            filter_and_of_refuted
              (fun x hx => by rw [of_decide_eq_true hx]; exact decide_eq_false hk.ne),
            filter_and_of_refuted
              (fun x hx => by rw [of_decide_eq_true hx]; exact decide_eq_false (asymm hk))]
          simp
        · rw [filter_and_of_refuted
              (fun x hx => by
                rw [of_decide_eq_true hx, hk]
                simp),
            filter_and_of_implied
              (fun x hx => by rw [of_decide_eq_true hx]; exact decide_eq_true hk),
            filter_and_of_refuted
              (fun x hx => by
                rw [of_decide_eq_true hx, hk]
                simp)]
          simp
        · rw [filter_and_of_refuted
              (fun x hx => by rw [of_decide_eq_true hx]; exact decide_eq_false (asymm hk)),
            filter_and_of_refuted
              (fun x hx => by rw [of_decide_eq_true hx]; exact decide_eq_false hk.ne'),
            filter_and_of_implied
              (fun x hx => by rw [of_decide_eq_true hx]; exact decide_eq_true hk)]
          simp

/-- Stability of `quicksort_orders` for every key value. -/
theorem quicksort_orders_stable {α K : Type} [LinearOrder K] (key : α → K)
    (l : List α) (k : K) :
    (quicksort_orders l key).filter (fun o => decide (key o = k))
      = l.filter fun o => decide (key o = k) :=
  quicksort_orders_stable_aux key l.length l le_rfl k

/-- C2: for every list of Orders and every key into a linearly ordered
type, `quicksort_orders` preserves the length and the multiset of
elements, produces a list that is non-decreasing under the key, keeps the
elements of every equal-key group in their input order, maps the empty
list to the empty list and returns a one-element list unchanged. -/
theorem c2_quicksort_orders_correct {K : Type} [LinearOrder K]
    (key : Order → K) (l : List Order) :
    (quicksort_orders l key).length = l.length
  ∧ List.Perm (quicksort_orders l key) l
  ∧ List.Pairwise (fun a b => key a ≤ key b) (quicksort_orders l key)
  ∧ (∀ k : K, (quicksort_orders l key).filter (fun o => decide (key o = k))
      = l.filter fun o => decide (key o = k))
  ∧ quicksort_orders ([] : List Order) key = []
  ∧ (∀ a : Order, quicksort_orders [a] key = [a]) := by
  refine ⟨(quicksort_orders_perm key l).length_eq, quicksort_orders_perm key l,
    quicksort_orders_sorted key l, quicksort_orders_stable key l, ?_, ?_⟩
  · rw [quicksort_orders]
    rfl
  · intro a
    rw [quicksort_orders]
    rfl
